import Mathlib

/-!
Shallow embedding of the daily-web-brief aggregation agent
(src/storage.py, src/scorer.py, src/fetcher.py, src/summarizer.py,
src/main.py) together with theorems settling the specification claims.

SQLite tables are modelled as association lists; timestamps are `Int`
(Unix seconds); Python floats are modelled as `ℚ` except for
`cosine_similarity`, whose square roots live in `ℝ`.  External
collaborators (fuzzy-match library, text extractor, embedding provider,
summarization provider) are parameters of the functions that call them,
mirroring the spec's black-box contracts.
-/

namespace DailyWebBrief

/-! ## storage.py — `seen` table

`CREATE TABLE seen (url TEXT PRIMARY KEY, title TEXT, content_hash TEXT,
first_seen_ts INTEGER)`.  A row list models the table; the PRIMARY KEY
constraint is enforced by the `INSERT OR IGNORE` in `mark_seen`. -/

structure SeenRecord where
  url : String
  title : String
  content_hash : String
  first_seen_ts : Int
deriving DecidableEq, Repr

/-- The `seen` table: list of rows, unique `url` in every reachable state. -/
abbrev SeenTable := List SeenRecord

/-- storage.is_url_seen: `SELECT 1 FROM seen WHERE url = ?`. -/
def is_url_seen (db : SeenTable) (url : String) : Bool :=
  db.any (fun r => r.url == url)

/-- storage.is_hash_seen: `SELECT 1 FROM seen WHERE content_hash = ?`. -/
def is_hash_seen (db : SeenTable) (h : String) : Bool :=
  db.any (fun r => r.content_hash == h)

/-- storage.mark_seen: `INSERT OR IGNORE INTO seen(...)` — inserts the row
unless a row with the same primary key `url` already exists. -/
def mark_seen (db : SeenTable) (url title content_hash : String) (ts : Int) : SeenTable :=
  if db.any (fun r => r.url == url) then db
  else db ++ [⟨url, title, content_hash, ts⟩]

/-! ## storage.py — `embeddings` table

`CREATE TABLE embeddings (cache_key TEXT PRIMARY KEY, model TEXT, vector
TEXT, created_ts INTEGER)`.  The JSON round-trip `json.dumps` /
`json.loads` of the float vector is modelled as the identity on `List ℚ`. -/

structure EmbeddingRow where
  cache_key : String
  model : String
  vector : List ℚ
  created_ts : Int
deriving DecidableEq, Repr

abbrev EmbeddingsTable := List EmbeddingRow

/-- storage.get_cached_embedding: `SELECT vector FROM embeddings WHERE
cache_key = ?`, JSON-decoding the stored vector. -/
def get_cached_embedding (db : EmbeddingsTable) (key : String) : Option (List ℚ) :=
  (db.find? (fun r => r.cache_key == key)).map (·.vector)

/-- storage.set_cached_embedding: `INSERT OR REPLACE INTO embeddings(...)` —
the row with this primary key, if any, is replaced. -/
def set_cached_embedding (db : EmbeddingsTable) (key model : String)
    (vector : List ℚ) (now : Int) : EmbeddingsTable :=
  ⟨key, model, vector, now⟩ :: db.filter (fun r => !(r.cache_key == key))

/-! ## storage.py — `source_health` table -/

structure HealthRow where
  consecutive_failures : Nat
  last_failure_ts : Option Int
  last_success_ts : Option Int
  disabled_until_ts : Option Int
deriving DecidableEq, Repr

abbrev HealthTable := List (String × HealthRow)

/-- Point lookup `SELECT ... FROM source_health WHERE url = ?`. -/
def findHealth (db : HealthTable) (url : String) : Option HealthRow :=
  (db.find? (fun p => p.1 == url)).map (·.2)

/-- Write-back of a row keyed by `url` (UPDATE if present, INSERT otherwise);
this is what the SQL upserts in storage.py compile to on the row level. -/
def setHealth (db : HealthTable) (url : String) (row : HealthRow) : HealthTable :=
  if db.any (fun p => p.1 == url) then
    db.map (fun p => if p.1 == url then (url, row) else p)
  else db ++ [(url, row)]

/-- storage.is_source_disabled: true iff the row exists, has a non-NULL
`disabled_until_ts`, and `int(time.time()) < disabled_until_ts`. -/
def is_source_disabled (db : HealthTable) (url : String) (now : Int) : Bool :=
  match findHealth db url with
  | some row =>
    match row.disabled_until_ts with
    | some d => now < d
    | none => false
  | none => false

/-- storage.record_source_success: upsert resetting `consecutive_failures`
to 0, stamping `last_success_ts`, clearing `disabled_until_ts`. -/
def record_source_success (db : HealthTable) (url : String) (now : Int) : HealthTable :=
  match findHealth db url with
  | none => setHealth db url ⟨0, none, some now, none⟩
  | some r => setHealth db url ⟨0, r.last_failure_ts, some now, none⟩

/-- storage.record_source_failure: upsert incrementing
`consecutive_failures` and stamping `last_failure_ts`, then, if the counter
has reached `disable_after_n`, `UPDATE ... SET disabled_until_ts = now + 24*3600`. -/
def record_source_failure (db : HealthTable) (url : String) (now : Int)
    (disable_after_n : Nat) : HealthTable :=
  let db1 :=
    match findHealth db url with
    | none => setHealth db url ⟨1, some now, none, none⟩
    | some r =>
      setHealth db url ⟨r.consecutive_failures + 1, some now, r.last_success_ts, r.disabled_until_ts⟩
  match findHealth db1 url with
  | some r =>
    if disable_after_n ≤ r.consecutive_failures then
      setHealth db1 url { r with disabled_until_ts := some (now + 24 * 3600) }
    else db1
  | none => db1

/-- A sequence of `record_source_failure` calls at the given times. -/
def applyFailures (db : HealthTable) (url : String) (times : List Int)
    (disable_after_n : Nat) : HealthTable :=
  times.foldl (fun d t => record_source_failure d url t disable_after_n) db

/-! ## scorer.py — keyword, recency, cosine

Python floats are modelled as `ℚ`; `rapidfuzz.fuzz.partial_ratio` is an
external library call, passed in as a parameter `fuzzScore` (its documented
contract — a value in `[0, 100]` — appears as a hypothesis where needed). -/

/-- Python `str.count` worker: counts non-overlapping occurrences of a
non-empty `pat`, scanning left to right and skipping past each match.
`fuel` is an upper bound on the number of steps (`hay.length` suffices). -/
def countOccsAux : Nat → List Char → List Char → Nat
  | 0, _, _ => 0
  | _ + 1, [], _ => 0
  | fuel + 1, c :: rest, pat =>
    if pat.isPrefixOf (c :: rest) then countOccsAux fuel ((c :: rest).drop pat.length) pat + 1
    else countOccsAux fuel rest pat

/-- Python `s.lower()`: per-character lowercasing (String.toLower, written
over the character list so that it evaluates by kernel reduction). -/
def lowerStr (s : String) : String := ⟨s.data.map Char.toLower⟩

/-- Python `hay.count(pat)`: number of non-overlapping occurrences;
`hay.count("") == len(hay) + 1` as in CPython. -/
def strCount (hay pat : String) : Nat :=
  if pat.toList.isEmpty then hay.toList.length + 1
  else countOccsAux hay.toList.length hay.toList pat.toList

/-- scorer.keyword_score: for each topic, add the count of case-insensitive
occurrences in `title + "\n" + text`, plus (if the title is non-empty)
`fuzz.partial_ratio(topic.lower(), title.lower()) / 100`. -/
def keyword_score (fuzzScore : String → String → ℚ)
    (text title : String) (topics : List String) : ℚ :=
  let hayLower := lowerStr (title ++ "\n" ++ text)
  (topics.map (fun t =>
    (strCount hayLower (lowerStr t) : ℚ) +
      if title ≠ "" then fuzzScore (lowerStr t) (lowerStr title) / 100 else 0)).sum

/-- scorer.normalize_keyword_score. -/
def normalize_keyword_score (raw max_observed : ℚ) : ℚ :=
  if max_observed ≤ 0 then 0 else min (raw / max_observed) 1

/-- scorer.recency_score: timestamps in seconds; `(now_dt - published_dt)
.total_seconds() / 3600.0` is `(now - p) / 3600`. -/
def recency_score (published : Option ℚ) (now : ℚ) (max_age_hours : ℚ) : ℚ :=
  match published with
  | none => 1 / 2
  | some p =>
    let age_hours := (now - p) / 3600
    if age_hours < 0 then 1
    else max 0 (1 - age_hours / max_age_hours)

/-- `np.dot a b`: sum of pairwise products (vectors of equal length in all
call sites; `zip` truncates to the shorter). -/
def dotQ (a b : List ℚ) : ℚ := ((a.zip b).map (fun p => p.1 * p.2)).sum

/-- Squared Euclidean norm, so that `np.linalg.norm a = Real.sqrt (normSq a)`. -/
def normSq (a : List ℚ) : ℚ := dotQ a a

/-- scorer.cosine_similarity: `np.dot(a, b) / (norm a * norm b)`, with the
explicit `if denom == 0: return 0.0` guard. -/
noncomputable def cosine_similarity (a b : List ℚ) : ℝ :=
  let denom : ℝ := Real.sqrt ((normSq a : ℚ) : ℝ) * Real.sqrt ((normSq b : ℚ) : ℝ)
  if denom = 0 then 0 else ((dotQ a b : ℚ) : ℝ) / denom

/-- scorer._cache_key: `sha256(model + ":" + text[:500])`.  The digest is
modelled by its (injectively encoded) payload string. -/
def cache_key (model text : String) : String :=
  model ++ ":" ++ ((text.toList.take 500).asString)

/-- scorer.get_embeddings_batch, second phase: the per-index fill loop
`for j, idx in enumerate(miss_indices): results[idx] = resp.data[j].embedding`
— cache hits keep their vector, misses consume the provider's response list
in order.  (On a response shorter than the miss list the Python code would
raise `IndexError`; the model pads with `[]`, and the theorems assume the
provider contract `len(resp) == len(misses)`.) -/
def fillResults : List (Option (List ℚ)) → List (List ℚ) → List (List ℚ)
  | [], _ => []
  | some v :: rest, resp => v :: fillResults rest resp
  | none :: rest, [] => [] :: fillResults rest []
  | none :: rest, r :: resp => r :: fillResults rest resp

/-- The cache misses of a batch: the texts whose cache key is absent from
the `embeddings` table, in input order (the `miss_indices` / `miss_texts`
collection loop of scorer.get_embeddings_batch). -/
def missesOf (db : EmbeddingsTable) (model : String) (texts : List String) : List String :=
  texts.filter (fun t => (get_cached_embedding db (cache_key model t)).isNone)

/-- scorer.get_embeddings_batch: per-text cache lookup, one batched provider
request for all misses, write-back of each miss.  Returns the vectors (one
per input text, same order), the updated cache, and the number of provider
requests issued. -/
def get_embeddings_batch (provider : List String → List (List ℚ))
    (db : EmbeddingsTable) (texts : List String) (model : String) (now : Int) :
    List (List ℚ) × EmbeddingsTable × Nat :=
  let cached := texts.map (fun t => get_cached_embedding db (cache_key model t))
  let missTexts := missesOf db model texts
  if missTexts.isEmpty then
    (cached.map (fun o => o.getD []), db, 0)
  else
    let resp := provider missTexts
    let results := fillResults cached resp
    let db2 := (missTexts.zip resp).foldl
      (fun d p => set_cached_embedding d (cache_key model p.1) model p.2 now) db
    (results, db2, 1)

/-! ## main.py — the funnel pipeline

`run()` modelled stage by stage on the keyword-only path (no
`OPENAI_API_KEY`), which is the deterministic path the end-to-end claims
exercise.  Feed metadata timestamps are `Option Int`; `datetime.min` (the
sort fallback for an absent `published`) is the parameter `minTs`. -/

structure Article where
  url : String
  title : String
  description : String
  published : Option Int
  source_url : String
deriving DecidableEq, Repr

/-- A candidate after stage 3, carrying its `kw_score` key. -/
structure KwArticle where
  art : Article
  kw_score : ℚ
deriving DecidableEq, Repr

/-- A candidate after stage 4, carrying extracted text and its hash. -/
structure FullArticle where
  kw : KwArticle
  text : String
  content_hash : String
deriving DecidableEq, Repr

structure SummarizedArticle where
  full : FullArticle
  summary : String
deriving DecidableEq, Repr

/-- Stable descending insertion: `x` goes before the first element strictly
below it, so elements with equal keys keep their original order — the
guarantee of Python's stable `list.sort(..., reverse=True)`. -/
def insertByDesc (lt : α → α → Bool) (x : α) : List α → List α
  | [] => [x]
  | y :: ys => if lt y x then x :: y :: ys else y :: insertByDesc lt x ys

/-- Stable descending sort (model of `list.sort(key=..., reverse=True)`). -/
def sortDesc (lt : α → α → Bool) (l : List α) : List α :=
  l.foldl (fun acc x => insertByDesc lt x acc) []

/-- Stage-3/stage-6 sort key comparison: lexicographic on
`(kw_score, published or datetime.min)`. -/
def stage3Lt (minTs : Int) (a b : KwArticle) : Bool :=
  decide (a.kw_score < b.kw_score ∨
    (a.kw_score = b.kw_score ∧ a.art.published.getD minTs < b.art.published.getD minTs))

/-- Stage 2 of main.run: keep articles with a non-empty URL that
`is_url_seen` does not know. -/
def urlDedupStage (db : SeenTable) (arts : List Article) : List Article :=
  arts.filter (fun a => a.url != "" && !(is_url_seen db a.url))

/-- Stage 3 of main.run: score `description`/`title` against the topics,
drop below `min_score`, sort by `(kw_score, published)` descending, and
truncate to `per_run_max_articles`. -/
def keywordStage (fuzzScore : String → String → ℚ) (topics : List String)
    (min_score : ℚ) (max_fetch : Nat) (minTs : Int) (arts : List Article) :
    List KwArticle :=
  let kw_scored := (arts.map (fun a =>
      KwArticle.mk a (keyword_score fuzzScore a.description a.title topics))).filter
    (fun x => min_score ≤ x.kw_score)
  (sortDesc (stage3Lt minTs) kw_scored).take max_fetch

/-- fetcher.fetch_full_content_batch (stage 4): the URL resolver + text
extractor is the black-box `extract`; `hashFn` is `sha256` of the text.
Candidates whose extraction fails are dropped; `asyncio.gather` keeps the
input order. -/
def fetch_full_content_batch (extract : Article → Option String)
    (hashFn : String → String) (candidates : List KwArticle) : List FullArticle :=
  candidates.filterMap (fun c => (extract c.art).map (fun t => ⟨c, t, hashFn t⟩))

/-- Stage 5 of main.run: drop every fetched candidate whose `content_hash`
the persisted `seen` table already knows. -/
def contentDedupStage (db : SeenTable) (arts : List FullArticle) : List FullArticle :=
  arts.filter (fun a => !(is_hash_seen db a.content_hash))

/-- Keyword-only fallback ordering of main.run (no OpenAI client): sort by
`(kw_score, published)` descending. -/
def fallbackSortStage (minTs : Int) (arts : List FullArticle) : List FullArticle :=
  sortDesc (fun a b => stage3Lt minTs a.kw b.kw) arts

/-- Stage 6 of main.run: truncate to `per_run_max_summary` and summarize
each survivor (`summarize_batch` returns one record per input, same order). -/
def summarizeStage (summarize : String → String → String) (max_summary : Nat)
    (scored : List FullArticle) : List SummarizedArticle :=
  (scored.take max_summary).map (fun a => ⟨a, summarize a.text a.kw.art.title⟩)

/-- Stage 9 of main.run: `mark_seen` every summarized article. -/
def persistStage (db : SeenTable) (now : Int) (summarized : List SummarizedArticle) :
    SeenTable :=
  summarized.foldl
    (fun d s => mark_seen d s.full.kw.art.url s.full.kw.art.title s.full.content_hash now) db

structure RunResult where
  unseen : List Article
  top_candidates : List KwArticle
  with_content : List FullArticle
  hash_deduped : List FullArticle
  summarized : List SummarizedArticle
  db_after : SeenTable
deriving Repr

/-- main.run, stages 2–6 and 9, on the keyword-only path (stages 1, 7 and 8
— feed fetch, report rendering, delivery — do not change the candidate
set). -/
def runFunnel (fuzzScore : String → String → ℚ) (extract : Article → Option String)
    (hashFn : String → String) (summarize : String → String → String)
    (topics : List String) (min_score : ℚ) (max_fetch max_summary : Nat)
    (minTs : Int) (db : SeenTable) (arts : List Article) (now : Int) : RunResult :=
  let unseen := urlDedupStage db arts
  let top := keywordStage fuzzScore topics min_score max_fetch minTs unseen
  let withContent := fetch_full_content_batch extract hashFn top
  let hashDeduped := contentDedupStage db withContent
  let scored := fallbackSortStage minTs hashDeduped
  let summarized := summarizeStage summarize max_summary scored
  let db2 := persistStage db now summarized
  ⟨unseen, top, withContent, hashDeduped, summarized, db2⟩

/-! ## Helper lemmas -/

theorem get_set_cached_same (db : EmbeddingsTable) (k m : String) (v : List ℚ) (now : Int) :
    get_cached_embedding (set_cached_embedding db k m v now) k = some v := by
  simp [get_cached_embedding, set_cached_embedding, List.find?]

theorem find?_filter_of_imp (l : List α) (p q : α → Bool)
    (h : ∀ a, p a = true → q a = true) : (l.filter q).find? p = l.find? p := by
  induction l with
  | nil => rfl
  | cons a l ih =>
    by_cases hq : q a = true
    · by_cases hp : p a = true
      · simp [List.filter_cons, hq, List.find?, hp]
      · simp [List.filter_cons, hq, List.find?, hp, ih]
    · have hp : p a = false := by
        cases hpa : p a
        · rfl
        · exact absurd (h a hpa) hq
      simp [List.filter_cons, hq, List.find?, hp, ih]

theorem get_set_cached_other (db : EmbeddingsTable) (k k' m : String) (v : List ℚ)
    (now : Int) (h : k' ≠ k) :
    get_cached_embedding (set_cached_embedding db k m v now) k' = get_cached_embedding db k' := by
  simp only [get_cached_embedding, set_cached_embedding, List.find?]
  rw [show (k == k') = false by simp [Ne.symm h]]
  rw [find?_filter_of_imp]
  intro r hr
  have : r.cache_key = k' := by simpa using hr
  simp [this, h]

/-! ## Claim C9 — embedding cache round-trip -/

/-- C9: `set_cached_embedding(db, key, model, v)` followed by
`get_cached_embedding(db, key)` returns exactly the stored vector (the
JSON round-trip is the identity on the rational model of the floats), and
the lookup is a pure table read — no embedding-provider call occurs in
either storage function. -/
theorem embedding_cache_round_trip (db : EmbeddingsTable) (key model : String)
    (v : List ℚ) (now : Int) :
    get_cached_embedding (set_cached_embedding db key model v now) key = some v :=
  get_set_cached_same db key model v now

/-! ## Claim C4 — idempotent mark_seen -/

/-- C4: marking a fresh URL seen and then re-marking the same URL (with any
title/hash/timestamp) is a no-op the second time — the table is unchanged,
and exactly one record for that URL exists, holding the first call's title,
content hash and timestamp.  (No error is possible: `mark_seen` is a total
function, mirroring `INSERT OR IGNORE`.) -/
theorem mark_seen_idempotent (db : SeenTable) (u t h : String) (ts : Int)
    (t' h' : String) (ts' : Int) (hfresh : is_url_seen db u = false) :
    mark_seen (mark_seen db u t h ts) u t' h' ts' = mark_seen db u t h ts ∧
      (mark_seen db u t h ts).filter (fun r => r.url == u) = [⟨u, t, h, ts⟩] := by
  have hany : db.any (fun r => r.url == u) = false := hfresh
  have hfil : db.filter (fun r => r.url == u) = [] := by
    rw [List.filter_eq_nil_iff]
    intro r hr
    exact fun hu => (List.any_eq_false.mp hany r hr) hu
  constructor
  · simp [mark_seen, hany]
  · simp [mark_seen, hany, List.filter_append, hfil]

/-- Witness for C4 at concrete inputs. -/
theorem mark_seen_idempotent_witness :
    is_url_seen [] "http://x" = false ∧
      (mark_seen (mark_seen [] "http://x" "t1" "h1" 10) "http://x" "t2" "h2" 20 =
          mark_seen [] "http://x" "t1" "h1" 10 ∧
        (mark_seen [] "http://x" "t1" "h1" 10).filter (fun r => r.url == "http://x") =
          [⟨"http://x", "t1", "h1", 10⟩]) :=
  ⟨by decide, mark_seen_idempotent [] "http://x" "t1" "h1" 10 "t2" "h2" 20 (by decide)⟩

/-! ## Claim C1 — cross-URL content dedup -/

/-- C1: if article A (url `au`, title `at`, hash `ah`) is marked seen into a
table where its URL was fresh, then any article B with a different, unseen
URL but the same content hash has `is_hash_seen = true`, still has
`is_url_seen = false`, and is filtered out by the stage-5 content-dedup
filter of every run against that table. -/
theorem cross_url_content_dedup (db : SeenTable) (au atitle ah : String) (ts : Int)
    (B : FullArticle) (hAfresh : is_url_seen db au = false)
    (hBfresh : is_url_seen db B.kw.art.url = false)
    (hne : B.kw.art.url ≠ au) (hhash : B.content_hash = ah) :
    is_hash_seen (mark_seen db au atitle ah ts) B.content_hash = true ∧
      is_url_seen (mark_seen db au atitle ah ts) B.kw.art.url = false ∧
      ∀ arts : List FullArticle, B ∉ contentDedupStage (mark_seen db au atitle ah ts) arts := by
  have hany : db.any (fun r => r.url == au) = false := hAfresh
  have hmark : mark_seen db au atitle ah ts = db ++ [⟨au, atitle, ah, ts⟩] := by
    simp [mark_seen, hany]
  have hseen : is_hash_seen (mark_seen db au atitle ah ts) B.content_hash = true := by
    rw [hmark]
    simp [is_hash_seen, hhash]
  refine ⟨hseen, ?_, ?_⟩
  · rw [hmark]
    have hBany : db.any (fun r => r.url == B.kw.art.url) = false := hBfresh
    simp only [is_url_seen, List.any_append, hBany, Bool.false_or, List.any_cons,
      List.any_nil, Bool.or_false]
    simp [Ne.symm hne]
  · intro arts hmem
    have := (List.mem_filter.mp hmem).2
    rw [hseen] at this
    simp at this

/-- Witness for C1 at concrete inputs: A at url `http://a`, B a full article
at url `http://b` syndicating the same content (hash `h0`). -/
theorem cross_url_content_dedup_witness :
    is_url_seen [] "http://a" = false ∧ is_url_seen [] "http://b" = false ∧
      "http://b" ≠ "http://a" ∧
      (is_hash_seen (mark_seen [] "http://a" "tA" "h0" 5) "h0" = true ∧
        is_url_seen (mark_seen [] "http://a" "tA" "h0" 5) "http://b" = false ∧
        ∀ arts : List FullArticle,
          (⟨⟨⟨"http://b", "tB", "d", none, "s"⟩, 2⟩, "body", "h0"⟩ : FullArticle) ∉
            contentDedupStage (mark_seen [] "http://a" "tA" "h0" 5) arts) :=
  ⟨by decide, by decide, by decide,
    cross_url_content_dedup [] "http://a" "tA" "h0" 5
      ⟨⟨⟨"http://b", "tB", "d", none, "s"⟩, 2⟩, "body", "h0"⟩
      (by decide) (by decide) (by decide) (by decide)⟩

/-! ## Claim C8 — funnel monotonic shrink -/

/-- C8: the keyword pre-score stage (stage 3) emits at most
`per_run_max_articles` candidates, and the summarization stage emits at most
`per_run_max_summary` articles and never more than the number of scored
articles entering it. -/
theorem funnel_shrink_bounds (fuzzScore : String → String → ℚ) (topics : List String)
    (min_score : ℚ) (max_fetch max_summary : Nat) (minTs : Int) (arts : List Article)
    (summarize : String → String → String) (scored : List FullArticle) :
    (keywordStage fuzzScore topics min_score max_fetch minTs arts).length ≤ max_fetch ∧
      (summarizeStage summarize max_summary scored).length ≤ max_summary ∧
      (summarizeStage summarize max_summary scored).length ≤ scored.length := by
  refine ⟨?_, ?_, ?_⟩
  · exact List.length_take_le _ _
  · simp only [summarizeStage, List.length_map]
    exact List.length_take_le _ _
  · simp only [summarizeStage, List.length_map]
    exact List.length_take_le' _ _

/-! ## Claim C6 — recency decay boundaries -/

/-- C6: for any positive `max_age_hours`: an absent publish timestamp
scores `0.5`; a publish time at or after `now` scores `1.0`; otherwise the
score is `max 0 (1 - age_hours / max_age_hours)`, which is exactly `0` at
age `max_age_hours` and stays `0` for anything older. -/
theorem recency_score_spec (now p max_age_hours : ℚ) (hpos : 0 < max_age_hours) :
    recency_score none now max_age_hours = 1 / 2 ∧
      (now ≤ p → recency_score (some p) now max_age_hours = 1) ∧
      (p ≤ now →
        recency_score (some p) now max_age_hours =
          max 0 (1 - (now - p) / 3600 / max_age_hours)) ∧
      recency_score (some (now - max_age_hours * 3600)) now max_age_hours = 0 ∧
      (max_age_hours * 3600 ≤ now - p → recency_score (some p) now max_age_hours = 0) := by
  refine ⟨rfl, ?_, ?_, ?_, ?_⟩
  · intro hle
    by_cases hneg : (now - p) / 3600 < 0
    · simp [recency_score, hneg]
    · have hage : (now - p) / 3600 = 0 := by
        have h1 : (now - p) / 3600 ≤ 0 :=
          div_nonpos_of_nonpos_of_nonneg (by linarith) (by norm_num)
        linarith [not_lt.mp hneg]
      simp [recency_score, hage]
  · intro hle
    have hage : ¬ (now - p) / 3600 < 0 := by
      push_neg
      exact div_nonneg (by linarith) (by norm_num)
    simp [recency_score, hage]
  · have hage : (now - (now - max_age_hours * 3600)) / 3600 = max_age_hours := by
      have : now - (now - max_age_hours * 3600) = max_age_hours * 3600 := by ring
      rw [this, mul_div_cancel_right₀ _ (by norm_num : (3600 : ℚ) ≠ 0)]
    have hnlt : ¬ (now - (now - max_age_hours * 3600)) / 3600 < 0 := by
      rw [hage]
      exact not_lt.mpr (le_of_lt hpos)
    simp only [recency_score, hnlt, if_false]
    rw [hage, div_self (ne_of_gt hpos)]
    simp
  · intro hold
    have hage_ge : max_age_hours ≤ (now - p) / 3600 :=
      (le_div_iff₀ (by norm_num : (0 : ℚ) < 3600)).mpr (by linarith)
    have hnlt : ¬ (now - p) / 3600 < 0 := not_lt.mpr (by linarith)
    have hdiv : 1 ≤ (now - p) / 3600 / max_age_hours :=
      (le_div_iff₀ hpos).mpr (by linarith)
    simp only [recency_score, hnlt, if_false]
    exact max_eq_left (by linarith)

/-- Witness for C6 at `now = 0`, `p = -3600` (one hour old),
`max_age_hours = 48`. -/
theorem recency_score_spec_witness :
    (0 : ℚ) < 48 ∧
      (recency_score none 0 48 = 1 / 2 ∧
        ((0 : ℚ) ≤ -3600 → recency_score (some (-3600)) 0 48 = 1) ∧
        ((-3600 : ℚ) ≤ 0 →
          recency_score (some (-3600)) 0 48 =
            max 0 (1 - (0 - -3600) / 3600 / 48)) ∧
        recency_score (some ((0 : ℚ) - 48 * 3600)) 0 48 = 0 ∧
        ((48 : ℚ) * 3600 ≤ 0 - -3600 → recency_score (some (-3600)) 0 48 = 0)) :=
  ⟨by norm_num, recency_score_spec 0 (-3600) 48 (by norm_num)⟩

/-! ## Claim C10 — keyword score non-negativity -/

/-- C10: provided the fuzzy matcher honours its documented `[0, 100]` range,
`keyword_score` is non-negative for every text, title and topic list (each
substring count contributes a natural number, each fuzzy title match a value
in `[0, 1]`), and it is `0` whenever the topic list is empty. -/
theorem keyword_score_nonneg (fuzzScore : String → String → ℚ)
    (hfuzz : ∀ s t, 0 ≤ fuzzScore s t ∧ fuzzScore s t ≤ 100)
    (text title : String) (topics : List String) :
    0 ≤ keyword_score fuzzScore text title topics ∧
      keyword_score fuzzScore text title [] = 0 := by
  constructor
  · apply List.sum_nonneg
    intro x hx
    obtain ⟨t, _, rfl⟩ := List.mem_map.mp hx
    have h1 : (0 : ℚ) ≤ (strCount (lowerStr (title ++ "\n" ++ text)) (lowerStr t) : ℚ) := by
      exact_mod_cast Nat.zero_le _
    have h2 : (0 : ℚ) ≤
        if title ≠ "" then fuzzScore (lowerStr t) (lowerStr title) / 100 else 0 := by
      by_cases ht : title ≠ ""
      · rw [if_pos ht]
        exact div_nonneg (hfuzz (lowerStr t) (lowerStr title)).1 (by norm_num)
      · simp [ht]
    linarith
  · rfl

/-- Witness for C10 with a concrete all-zero fuzzy matcher. -/
theorem keyword_score_nonneg_witness :
    (∀ s t : String, 0 ≤ (fun _ _ => (0 : ℚ)) s t ∧ (fun _ _ => (0 : ℚ)) s t ≤ 100) ∧
      (0 ≤ keyword_score (fun _ _ => 0) "body text" "title" ["ai", "rust"] ∧
        keyword_score (fun _ _ => 0) "body text" "title" [] = 0) :=
  ⟨fun _ _ => ⟨le_refl 0, by norm_num⟩,
    keyword_score_nonneg (fun _ _ => 0) (fun _ _ => ⟨le_refl 0, by norm_num⟩)
      "body text" "title" ["ai", "rust"]⟩

/-! ## Claim C3 — circuit breaker -/

theorem findHealth_single (u : String) (r : HealthRow) : findHealth [(u, r)] u = some r := by
  simp [findHealth, List.find?]

theorem setHealth_single (u : String) (r r' : HealthRow) :
    setHealth [(u, r)] u r' = [(u, r')] := by
  simp [setHealth]

theorem findHealth_setHealth (db : HealthTable) (u : String) (r : HealthRow) :
    findHealth (setHealth db u r) u = some r := by
  unfold setHealth
  by_cases h : db.any (fun p => p.1 == u) = true
  · rw [if_pos h]
    induction db with
    | nil => simp at h
    | cons p rest ih =>
      by_cases hp : p.1 = u
      · simp [findHealth, List.find?, hp]
      · have hpf : (p.1 == u) = false := by simp [hp]
        simp only [List.any_cons, hpf, Bool.false_or] at h
        simp only [List.map_cons, hpf, Bool.false_eq_true, if_false]
        simpa [findHealth, List.find?, hpf] using ih h
  · rw [if_neg h]
    have h' : db.any (fun p => p.1 == u) = false := Bool.eq_false_iff.mpr h
    have hnone : db.find? (fun p => p.1 == u) = none := by
      rw [List.find?_eq_none]
      intro x hx
      exact List.any_eq_false.mp h' x hx
    simp [findHealth, List.find?_append, hnone, List.find?]

/-- One `record_source_failure` call on a table holding exactly the one row
for this source: the counter is incremented, the failure time stamped, and
the disable deadline `now + 24h` set exactly when the new counter has
reached the threshold. -/
theorem record_failure_single (u : String) (r : HealthRow) (t : Int) (n : Nat) :
    record_source_failure [(u, r)] u t n =
      if n ≤ r.consecutive_failures + 1 then
        [(u, ⟨r.consecutive_failures + 1, some t, r.last_success_ts, some (t + 24 * 3600)⟩)]
      else
        [(u, ⟨r.consecutive_failures + 1, some t, r.last_success_ts, r.disabled_until_ts⟩)] := by
  simp only [record_source_failure, findHealth_single, setHealth_single]

/-- One `record_source_failure` call on an empty table: the row is created
with counter 1 (and immediately disabled when the threshold is 1). -/
theorem record_failure_empty (u : String) (t : Int) (n : Nat) :
    record_source_failure [] u t n =
      if n ≤ 1 then [(u, ⟨1, some t, none, some (t + 24 * 3600)⟩)]
      else [(u, ⟨1, some t, none, none⟩)] := by
  have hset : setHealth [] u ⟨1, some t, none, none⟩ = [(u, ⟨1, some t, none, none⟩)] := by
    simp [setHealth]
  have hfind : findHealth [] u = none := rfl
  simp only [record_source_failure, hfind, hset, findHealth_single, setHealth_single]

theorem applyFailures_cons (db : HealthTable) (u : String) (t : Int) (ts : List Int)
    (n : Nat) :
    applyFailures db u (t :: ts) n = applyFailures (record_source_failure db u t n) u ts n :=
  rfl

/-- Folding the remaining failures over a healthy row: when the counter is
scheduled to reach exactly `n` at the last failure, the final state is the
single row with counter `n` and deadline `last failure + 24h`. -/
theorem applyFailures_reaches (u : String) (n : Nat) (tl : Int) :
    ∀ (init : List Int) (c : Nat) (lf ls : Option Int),
      c + init.length + 1 = n →
      applyFailures [(u, ⟨c, lf, ls, none⟩)] u (init ++ [tl]) n =
        [(u, ⟨n, some tl, ls, some (tl + 24 * 3600)⟩)] := by
  intro init
  induction init with
  | nil =>
    intro c lf ls hc
    simp only [List.length_nil] at hc
    simp only [List.nil_append, applyFailures, List.foldl]
    rw [record_failure_single, if_pos (show n ≤ c + 1 by omega)]
    have hcn : c + 1 = n := by omega
    simp [hcn]
  | cons t0 init' ih =>
    intro c lf ls hc
    simp only [List.length_cons] at hc
    rw [show (t0 :: init') ++ [tl] = t0 :: (init' ++ [tl]) from rfl, applyFailures_cons,
      record_failure_single, if_neg (show ¬ n ≤ c + 1 by omega)]
    exact ih (c + 1) (some t0) ls (by omega)

/-- C3: starting with no stored health row, after exactly `n` consecutive
`record_source_failure` calls (at times `init ++ [tl]`, `n` of them) with no
intervening success, `is_source_disabled` is true exactly for query times
before the stored deadline `tl + 24h` and false from the deadline on; the
final row stores counter `n` and that deadline.  A single
`record_source_success` resets the counter to 0 and clears the deadline, and
— from any table state whatsoever — leaves the source not disabled. -/
theorem circuit_breaker_spec (u : String) (n : Nat) (init : List Int) (tl : Int)
    (hn : init.length + 1 = n) (q succTs q2 : Int) :
    is_source_disabled (applyFailures [] u (init ++ [tl]) n) u q =
        decide (q < tl + 24 * 3600) ∧
      findHealth (applyFailures [] u (init ++ [tl]) n) u =
        some ⟨n, some tl, none, some (tl + 24 * 3600)⟩ ∧
      findHealth (record_source_success (applyFailures [] u (init ++ [tl]) n) u succTs) u =
        some ⟨0, some tl, some succTs, none⟩ ∧
      is_source_disabled (record_source_success (applyFailures [] u (init ++ [tl]) n) u succTs)
          u q2 = false ∧
      ∀ (db2 : HealthTable) (now3 q3 : Int),
        is_source_disabled (record_source_success db2 u now3) u q3 = false := by
  have hsuccess : ∀ (db2 : HealthTable) (now3 q3 : Int),
      is_source_disabled (record_source_success db2 u now3) u q3 = false := by
    intro db2 now3 q3
    cases hdb : findHealth db2 u with
    | none => simp [record_source_success, hdb, is_source_disabled, findHealth_setHealth]
    | some r => simp [record_source_success, hdb, is_source_disabled, findHealth_setHealth]
  have hstate : applyFailures [] u (init ++ [tl]) n =
      [(u, ⟨n, some tl, none, some (tl + 24 * 3600)⟩)] := by
    cases init with
    | nil =>
      simp only [List.length_nil] at hn
      simp only [List.nil_append, applyFailures, List.foldl]
      rw [record_failure_empty, if_pos (by omega)]
      rw [show (1 : Nat) = n by omega]
    | cons t0 init' =>
      simp only [List.length_cons] at hn
      rw [show (t0 :: init') ++ [tl] = t0 :: (init' ++ [tl]) from rfl, applyFailures_cons,
        record_failure_empty, if_neg (by omega)]
      exact applyFailures_reaches u n tl init' 1 (some t0) none (by omega)
  refine ⟨?_, ?_, ?_, hsuccess _ succTs q2, hsuccess⟩
  · rw [hstate]
    simp [is_source_disabled, findHealth_single]
  · rw [hstate]
    exact findHealth_single u _
  · rw [hstate]
    simp [record_source_success, findHealth_single, setHealth_single]

/-- Witness for C3: threshold 5 (the default `disable_after_n`), failures
at times 10, 20, 30, 40, 50, a query before the deadline `50 + 86400`, and
a success at time 60. -/
theorem circuit_breaker_spec_witness :
    ([10, 20, 30, 40] : List Int).length + 1 = 5 ∧
      (is_source_disabled (applyFailures [] "http://feed" ([10, 20, 30, 40] ++ [50]) 5)
            "http://feed" 100 = decide ((100 : Int) < 50 + 24 * 3600) ∧
        findHealth (applyFailures [] "http://feed" ([10, 20, 30, 40] ++ [50]) 5) "http://feed" =
          some ⟨5, some 50, none, some (50 + 24 * 3600)⟩ ∧
        findHealth (record_source_success
            (applyFailures [] "http://feed" ([10, 20, 30, 40] ++ [50]) 5) "http://feed" 60)
            "http://feed" = some ⟨0, some 50, some 60, none⟩ ∧
        is_source_disabled (record_source_success
            (applyFailures [] "http://feed" ([10, 20, 30, 40] ++ [50]) 5) "http://feed" 60)
            "http://feed" 70 = false ∧
        ∀ (db2 : HealthTable) (now3 q3 : Int),
          is_source_disabled (record_source_success db2 "http://feed" now3) "http://feed" q3 =
            false) :=
  ⟨by decide, circuit_breaker_spec "http://feed" 5 [10, 20, 30, 40] 50 (by decide) 100 60 70⟩

/-! ## Claim C5 — batched embedding lookup -/

theorem fillResults_length :
    ∀ (cached : List (Option (List ℚ))) (resp : List (List ℚ)),
      (fillResults cached resp).length = cached.length := by
  intro cached
  induction cached with
  | nil => intro resp; rfl
  | cons o rest ih =>
    intro resp
    cases o with
    | some v => simp [fillResults, ih]
    | none =>
      cases resp with
      | nil => simp [fillResults, ih]
      | cons r rs => simp [fillResults, ih]

theorem fillResults_hit :
    ∀ (cached : List (Option (List ℚ))) (resp : List (List ℚ)) (i : Nat) (v : List ℚ),
      cached[i]? = some (some v) → (fillResults cached resp)[i]? = some v := by
  intro cached
  induction cached with
  | nil => intro resp i v h; simp at h
  | cons o rest ih =>
    intro resp i v h
    cases o with
    | some w =>
      cases i with
      | zero => simp at h; simp [fillResults, h]
      | succ i => simpa [fillResults] using ih resp i v (by simpa using h)
    | none =>
      cases resp with
      | nil =>
        cases i with
        | zero => simp at h
        | succ i => simpa [fillResults] using ih [] i v (by simpa using h)
      | cons r rs =>
        cases i with
        | zero => simp at h
        | succ i => simpa [fillResults] using ih rs i v (by simpa using h)

theorem fillResults_miss :
    ∀ (cached : List (Option (List ℚ))) (resp : List (List ℚ)) (i : Nat),
      cached.countP Option.isNone ≤ resp.length → cached[i]? = some none →
      (fillResults cached resp)[i]? = resp[(cached.take i).countP Option.isNone]? := by
  intro cached
  induction cached with
  | nil => intro resp i hlen h; simp at h
  | cons o rest ih =>
    intro resp i hlen h
    cases o with
    | some w =>
      cases i with
      | zero => simp at h
      | succ i =>
        have hlen' : rest.countP Option.isNone ≤ resp.length := by
          simpa [List.countP_cons] using hlen
        simpa [fillResults, List.countP_cons] using ih resp i hlen' (by simpa using h)
    | none =>
      cases resp with
      | nil => simp [List.countP_cons] at hlen
      | cons r rs =>
        cases i with
        | zero => simp [fillResults]
        | succ i =>
          have hlen' : rest.countP Option.isNone ≤ rs.length := by
            simpa [List.countP_cons] using hlen
          simpa [fillResults, List.countP_cons] using ih rs i hlen' (by simpa using h)

theorem get_fold_set_not_mem (m : String) (now : Int) :
    ∀ (pairs : List (String × List ℚ)) (db : EmbeddingsTable) (k : String),
      k ∉ pairs.map Prod.fst →
      get_cached_embedding
          (pairs.foldl (fun d p => set_cached_embedding d p.1 m p.2 now) db) k =
        get_cached_embedding db k := by
  intro pairs
  induction pairs with
  | nil => intro db k _; rfl
  | cons p rest ih =>
    intro db k h
    simp only [List.map_cons, List.mem_cons, not_or] at h
    rw [List.foldl_cons, ih _ _ h.2]
    exact get_set_cached_other _ _ _ _ _ _ h.1

theorem get_fold_set_mem (m : String) (now : Int) :
    ∀ (pairs : List (String × List ℚ)) (db : EmbeddingsTable) (j : Nat)
      (k : String) (v : List ℚ),
      pairs[j]? = some (k, v) → (pairs.map Prod.fst).Nodup →
      get_cached_embedding
          (pairs.foldl (fun d p => set_cached_embedding d p.1 m p.2 now) db) k = some v := by
  intro pairs
  induction pairs with
  | nil => intro db j k v h _; simp at h
  | cons p rest ih =>
    intro db j k v h hnd
    simp only [List.map_cons, List.nodup_cons] at hnd
    cases j with
    | zero =>
      simp only [List.getElem?_cons_zero, Option.some_inj] at h
      subst h
      rw [List.foldl_cons, get_fold_set_not_mem m now rest _ k hnd.1]
      exact get_set_cached_same _ _ _ _ _
    | succ j =>
      rw [List.foldl_cons]
      exact ih _ j k v (by simpa using h) hnd.2

/-- C5: with a provider honouring its contract (one vector per requested
text), `get_embeddings_batch` returns exactly one vector per input text in
input order; every text whose cache key is present receives the cached
vector; every miss receives the provider vector at the miss's position in
the single batched request; the provider is called zero times when all keys
hit (the cache is then untouched) and exactly once otherwise; and every
miss's result vector is stored in the cache before returning. -/
theorem get_embeddings_batch_spec (provider : List String → List (List ℚ))
    (db : EmbeddingsTable) (texts : List String) (model : String) (now : Int)
    (hprov : ∀ ts, (provider ts).length = ts.length) :
    (get_embeddings_batch provider db texts model now).1.length = texts.length ∧
      (∀ (i : Nat) (t : String) (v : List ℚ), texts[i]? = some t →
        get_cached_embedding db (cache_key model t) = some v →
        (get_embeddings_batch provider db texts model now).1[i]? = some v) ∧
      (∀ (i : Nat) (t : String), texts[i]? = some t →
        get_cached_embedding db (cache_key model t) = none →
        (get_embeddings_batch provider db texts model now).1[i]? =
          (provider (missesOf db model texts))[(missesOf db model (texts.take i)).length]?) ∧
      ((get_embeddings_batch provider db texts model now).2.2 =
        if (missesOf db model texts).isEmpty then 0 else 1) ∧
      ((missesOf db model texts).isEmpty →
        (get_embeddings_batch provider db texts model now).2.1 = db) ∧
      (((missesOf db model texts).map (cache_key model)).Nodup →
        ∀ (j : Nat) (t : String), (missesOf db model texts)[j]? = some t →
          ∃ v, (provider (missesOf db model texts))[j]? = some v ∧
            get_cached_embedding (get_embeddings_batch provider db texts model now).2.1
              (cache_key model t) = some v) := by
  by_cases hm : (missesOf db model texts).isEmpty
  · have hout : get_embeddings_batch provider db texts model now =
        ((texts.map (fun t => get_cached_embedding db (cache_key model t))).map
          (fun o => o.getD []), db, 0) := by
      rw [get_embeddings_batch, if_pos hm]
    refine ⟨?_, ?_, ?_, ?_, fun _ => by rw [hout], ?_⟩
    · rw [hout]; simp
    · intro i t v ht hv
      rw [hout]
      simp [List.getElem?_map, ht, hv]
    · intro i t ht hv
      exfalso
      have hmem : t ∈ missesOf db model texts :=
        List.mem_filter.mpr ⟨List.getElem?_mem ht, by simp [hv]⟩
      rw [List.isEmpty_iff.mp hm] at hmem
      simp at hmem
    · rw [hout, if_pos hm]
    · intro _ j t hjt
      exfalso
      rw [List.isEmpty_iff.mp hm] at hjt
      simp at hjt
  · have hout : get_embeddings_batch provider db texts model now =
        (fillResults (texts.map (fun t => get_cached_embedding db (cache_key model t)))
            (provider (missesOf db model texts)),
          ((missesOf db model texts).zip (provider (missesOf db model texts))).foldl
            (fun d p => set_cached_embedding d (cache_key model p.1) model p.2 now) db,
          1) := by
      rw [get_embeddings_batch, if_neg hm]
    have hrl : (provider (missesOf db model texts)).length = (missesOf db model texts).length :=
      hprov _
    have hcount :
        (texts.map (fun t => get_cached_embedding db (cache_key model t))).countP
            Option.isNone = (missesOf db model texts).length := by
      rw [List.countP_map, missesOf, ← List.countP_eq_length_filter]
      rfl
    refine ⟨?_, ?_, ?_, ?_, fun h => absurd h hm, ?_⟩
    · rw [hout]
      simp [fillResults_length]
    · intro i t v ht hv
      rw [hout]
      exact fillResults_hit _ _ i v (by simp [List.getElem?_map, ht, hv])
    · intro i t ht hv
      rw [hout]
      have h1 := fillResults_miss
        (texts.map (fun t => get_cached_embedding db (cache_key model t)))
        (provider (missesOf db model texts)) i (by rw [hcount, hrl])
        (by simp [List.getElem?_map, ht, hv])
      rw [h1]
      congr 1
      rw [← List.map_take, List.countP_map, List.countP_eq_length_filter]
      rfl
    · rw [hout, if_neg hm]
    · intro hnd j t hjt
      have hjlt : j < (missesOf db model texts).length := (List.getElem?_eq_some.mp hjt).1
      have hjr : j < (provider (missesOf db model texts)).length := by
        rw [hrl]; exact hjlt
      refine ⟨(provider (missesOf db model texts))[j], List.getElem?_eq_getElem hjr, ?_⟩
      rw [hout]
      have hfold :
          ((missesOf db model texts).zip (provider (missesOf db model texts))).foldl
              (fun d p => set_cached_embedding d (cache_key model p.1) model p.2 now) db =
            (((missesOf db model texts).zip (provider (missesOf db model texts))).map
                (fun p => (cache_key model p.1, p.2))).foldl
              (fun d p => set_cached_embedding d p.1 model p.2 now) db := by
        rw [List.foldl_map]
      rw [hfold]
      apply get_fold_set_mem model now _ db j
      · have hz : ((missesOf db model texts).zip (provider (missesOf db model texts)))[j]? =
            some ((missesOf db model texts)[j], (provider (missesOf db model texts))[j]) := by
          rw [List.getElem?_eq_getElem (by rw [List.length_zip]; omega)]
          rw [List.getElem_zip]
        have ht' : (missesOf db model texts)[j] = t := by
          have h2 := List.getElem?_eq_getElem hjlt
          rw [hjt] at h2
          exact Option.some_inj.mp h2.symm
        simp [List.getElem?_map, hz, ht']
      · have hfst : ((missesOf db model texts).zip (provider (missesOf db model texts))).map
            Prod.fst = missesOf db model texts :=
          List.map_fst_zip _ _ (by omega)
        have hmm : ((((missesOf db model texts).zip (provider (missesOf db model texts))).map
            (fun p => (cache_key model p.1, p.2))).map Prod.fst) =
            (missesOf db model texts).map (cache_key model) := by
          rw [List.map_map, show (Prod.fst ∘ fun p : String × List ℚ =>
            (cache_key model p.1, p.2)) = (cache_key model ∘ Prod.fst) from rfl,
            ← List.map_map, hfst]
        rw [hmm]
        exact hnd

/-- Concrete provider for the C5 witness: one vector `[7]` per requested text. -/
def wProvider (l : List String) : List (List ℚ) := l.map (fun _ => [7])

/-- Concrete cache for the C5 witness: text `"a"` is cached with vector `[3]`. -/
def wCache : EmbeddingsTable := [⟨cache_key "m" "a", "m", [3], 0⟩]

/-- Witness for C5: texts `["a", "b"]` against a cache holding only `"a"`. -/
theorem get_embeddings_batch_spec_witness :
    (∀ ts : List String, (wProvider ts).length = ts.length) ∧
      ((get_embeddings_batch wProvider wCache ["a", "b"] "m" 1).1.length =
          (["a", "b"] : List String).length ∧
        (∀ (i : Nat) (t : String) (v : List ℚ), (["a", "b"] : List String)[i]? = some t →
          get_cached_embedding wCache (cache_key "m" t) = some v →
          (get_embeddings_batch wProvider wCache ["a", "b"] "m" 1).1[i]? = some v) ∧
        (∀ (i : Nat) (t : String), (["a", "b"] : List String)[i]? = some t →
          get_cached_embedding wCache (cache_key "m" t) = none →
          (get_embeddings_batch wProvider wCache ["a", "b"] "m" 1).1[i]? =
            (wProvider (missesOf wCache "m" ["a", "b"]))[(missesOf wCache "m" ((["a", "b"] : List String).take i)).length]?) ∧
        ((get_embeddings_batch wProvider wCache ["a", "b"] "m" 1).2.2 =
          if (missesOf wCache "m" ["a", "b"]).isEmpty then 0 else 1) ∧
        ((missesOf wCache "m" ["a", "b"]).isEmpty →
          (get_embeddings_batch wProvider wCache ["a", "b"] "m" 1).2.1 = wCache) ∧
        (((missesOf wCache "m" ["a", "b"]).map (cache_key "m")).Nodup →
          ∀ (j : Nat) (t : String), (missesOf wCache "m" ["a", "b"])[j]? = some t →
            ∃ v, (wProvider (missesOf wCache "m" ["a", "b"]))[j]? = some v ∧
              get_cached_embedding
                (get_embeddings_batch wProvider wCache ["a", "b"] "m" 1).2.1
                (cache_key "m" t) = some v)) :=
  ⟨fun ts => by simp [wProvider],
    get_embeddings_batch_spec wProvider wCache ["a", "b"] "m" 1
      (fun ts => by simp [wProvider])⟩

/-! ## Claim C7 — cosine similarity bounds -/

theorem dotQ_cons (x y : ℚ) (xs ys : List ℚ) :
    dotQ (x :: xs) (y :: ys) = x * y + dotQ xs ys := by
  simp [dotQ]

theorem normSq_cons (x : ℚ) (xs : List ℚ) : normSq (x :: xs) = x * x + normSq xs := by
  simp [normSq, dotQ]

theorem normSq_nonneg (a : List ℚ) : 0 ≤ normSq a := by
  induction a with
  | nil => exact le_refl 0
  | cons x xs ih =>
    rw [normSq_cons]
    nlinarith [mul_self_nonneg x]

/-- Cauchy-Schwarz for the truncating `np.dot` model: the square of the dot
product is bounded by the product of the squared norms. -/
theorem dotQ_sq_le (a : List ℚ) : ∀ b : List ℚ, (dotQ a b) ^ 2 ≤ normSq a * normSq b := by
  induction a with
  | nil => intro b; simp [dotQ, normSq]
  | cons x xs ih =>
    intro b
    cases b with
    | nil => simp [dotQ, normSq]
    | cons y ys =>
      have h1 := ih ys
      have h2 := normSq_nonneg xs
      have h3 := normSq_nonneg ys
      rw [dotQ_cons, normSq_cons, normSq_cons]
      rcases eq_or_lt_of_le h3 with hB | hB
      · have hS : dotQ xs ys = 0 := by nlinarith [sq_nonneg (dotQ xs ys)]
        rw [hS]
        nlinarith [mul_nonneg h2 (mul_self_nonneg y), mul_self_nonneg (x * y)]
      · have h4 : 0 ≤ normSq xs * normSq ys - (dotQ xs ys) ^ 2 := by linarith
        nlinarith [sq_nonneg (x * normSq ys - y * dotQ xs ys),
          mul_nonneg (mul_self_nonneg y) h4, mul_nonneg (le_of_lt hB) h4]

theorem cosine_similarity_def (a b : List ℚ) :
    cosine_similarity a b =
      if Real.sqrt ((normSq a : ℚ) : ℝ) * Real.sqrt ((normSq b : ℚ) : ℝ) = 0 then 0
      else ((dotQ a b : ℚ) : ℝ) /
        (Real.sqrt ((normSq a : ℚ) : ℝ) * Real.sqrt ((normSq b : ℚ) : ℝ)) := rfl

/-- C7: `cosine_similarity` always lies in `[-1, 1]` (in particular for all
non-zero vectors), and whenever either argument has zero Euclidean norm —
equivalently, zero squared norm — the guard returns exactly `0` instead of
dividing by zero. -/
theorem cosine_similarity_bounds (a b : List ℚ) :
    (-1 ≤ cosine_similarity a b ∧ cosine_similarity a b ≤ 1) ∧
      ((normSq a = 0 ∨ normSq b = 0) → cosine_similarity a b = 0) := by
  have hA : (0 : ℝ) ≤ ((normSq a : ℚ) : ℝ) := by exact_mod_cast normSq_nonneg a
  have hB : (0 : ℝ) ≤ ((normSq b : ℚ) : ℝ) := by exact_mod_cast normSq_nonneg b
  have hCS : (((dotQ a b : ℚ) : ℝ)) ^ 2 ≤ ((normSq a : ℚ) : ℝ) * ((normSq b : ℚ) : ℝ) := by
    exact_mod_cast dotQ_sq_le a b
  rw [cosine_similarity_def]
  by_cases hd : Real.sqrt ((normSq a : ℚ) : ℝ) * Real.sqrt ((normSq b : ℚ) : ℝ) = 0
  · rw [if_pos hd]
    exact ⟨⟨by norm_num, by norm_num⟩, fun _ => rfl⟩
  · rw [if_neg hd]
    have hdnn : 0 ≤ Real.sqrt ((normSq a : ℚ) : ℝ) * Real.sqrt ((normSq b : ℚ) : ℝ) :=
      mul_nonneg (Real.sqrt_nonneg _) (Real.sqrt_nonneg _)
    have hdpos : 0 < Real.sqrt ((normSq a : ℚ) : ℝ) * Real.sqrt ((normSq b : ℚ) : ℝ) :=
      lt_of_le_of_ne hdnn (Ne.symm hd)
    have hd2 : (Real.sqrt ((normSq a : ℚ) : ℝ) * Real.sqrt ((normSq b : ℚ) : ℝ)) ^ 2 =
        ((normSq a : ℚ) : ℝ) * ((normSq b : ℚ) : ℝ) := by
      rw [mul_pow, Real.sq_sqrt hA, Real.sq_sqrt hB]
    have hDle : ((dotQ a b : ℚ) : ℝ) ≤
        Real.sqrt ((normSq a : ℚ) : ℝ) * Real.sqrt ((normSq b : ℚ) : ℝ) := by
      nlinarith [sq_nonneg (((dotQ a b : ℚ) : ℝ) -
        Real.sqrt ((normSq a : ℚ) : ℝ) * Real.sqrt ((normSq b : ℚ) : ℝ))]
    have hDge : -(Real.sqrt ((normSq a : ℚ) : ℝ) * Real.sqrt ((normSq b : ℚ) : ℝ)) ≤
        ((dotQ a b : ℚ) : ℝ) := by
      nlinarith [sq_nonneg (((dotQ a b : ℚ) : ℝ) +
        Real.sqrt ((normSq a : ℚ) : ℝ) * Real.sqrt ((normSq b : ℚ) : ℝ))]
    refine ⟨⟨?_, ?_⟩, ?_⟩
    · rw [le_div_iff₀ hdpos]
      linarith
    · exact (div_le_one hdpos).mpr hDle
    · intro h0
      exfalso
      apply hd
      rcases h0 with h0 | h0
      · rw [show ((normSq a : ℚ) : ℝ) = 0 by rw [h0]; norm_num, Real.sqrt_zero, zero_mul]
      · rw [show ((normSq b : ℚ) : ℝ) = 0 by rw [h0]; norm_num, Real.sqrt_zero, mul_zero]

/-- Witness for C7 at the concrete vectors `[3, 4]` and `[4, -3]`. -/
theorem cosine_similarity_bounds_witness :
    (-1 ≤ cosine_similarity [3, 4] [4, -3] ∧ cosine_similarity [3, 4] [4, -3] ≤ 1) ∧
      ((normSq [3, 4] = 0 ∨ normSq [4, -3] = 0) → cosine_similarity [3, 4] [4, -3] = 0) :=
  cosine_similarity_bounds [3, 4] [4, -3]

/-! ## Claim C2 — intra-run duplicate content

The spec requires that of two same-run candidates with identical extracted
body text at most one reaches summarization and the report.  Stage 5 of
main.run, however, consults only the *persisted* `seen` table
(`is_hash_seen`), and `mark_seen` runs only in stage 9 — so two duplicates
arriving in the same run both pass the content-dedup filter.  The run below
exhibits this: two candidates with distinct URLs whose extraction yields the
same body text, neither previously seen, both survive stage 5, both are
summarized and both appear in the delivered set. -/

def dupA1 : Article := ⟨"http://a", "", "ai", none, "f"⟩

def dupA2 : Article := ⟨"http://b", "", "ai", none, "f"⟩

/-- The concrete run: two feed entries (`http://a`, `http://b`) whose
extraction yields the same body text, an initially empty `seen` table,
topics `["ai"]`, `min_score = 1`, `per_run_max_articles = 10`,
`per_run_max_summary = 5`. -/
def dupRun : RunResult :=
  runFunnel (fun _ _ => 0) (fun _ => some "shared body text") (fun t => t)
    (fun _ _ => "sum") ["ai"] 1 10 5 0 [] [dupA1, dupA2] 100

/-- C2 fails on the code: with neither URL nor content hash previously
persisted, both members of an identical-content pair pass the stage-5
content-dedup filter, both reach summarization, and both are delivered —
the claimed "at most one of the pair" is violated. -/
theorem intra_run_duplicate_reaches_report :
    is_url_seen [] dupA1.url = false ∧ is_url_seen [] dupA2.url = false ∧
      dupA1.url ≠ dupA2.url ∧
      is_hash_seen [] "shared body text" = false ∧
      dupRun.hash_deduped.length = 2 ∧
      dupRun.summarized.map (fun s => s.full.kw.art.url) = ["http://a", "http://b"] ∧
      dupRun.summarized.map (fun s => s.full.content_hash) =
        ["shared body text", "shared body text"] := by
  have hks1 : keyword_score (fun _ _ => (0 : ℚ)) dupA1.description dupA1.title ["ai"] = 1 := by
    show keyword_score (fun _ _ => (0 : ℚ)) "ai" "" ["ai"] = 1
    simp only [keyword_score, List.map_cons, List.map_nil, List.sum_cons, List.sum_nil, ne_eq]
    norm_num
    exact_mod_cast (by decide : strCount (lowerStr ("" ++ "\n" ++ "ai")) (lowerStr "ai") = 1)
  have hks2 : keyword_score (fun _ _ => (0 : ℚ)) dupA2.description dupA2.title ["ai"] = 1 := hks1
  have hmap : [dupA1, dupA2].map
      (fun a => KwArticle.mk a (keyword_score (fun _ _ => (0 : ℚ)) a.description a.title ["ai"])) =
      [⟨dupA1, 1⟩, ⟨dupA2, 1⟩] := by
    simp only [List.map_cons, List.map_nil, hks1, hks2]
  have hurl : urlDedupStage [] [dupA1, dupA2] = [dupA1, dupA2] := by decide
  have hstage3 :
      keywordStage (fun _ _ => (0 : ℚ)) ["ai"] 1 10 0 (urlDedupStage [] [dupA1, dupA2]) =
        [⟨dupA1, 1⟩, ⟨dupA2, 1⟩] := by
    rw [hurl]
    show ((([dupA1, dupA2].map
        (fun a =>
          KwArticle.mk a (keyword_score (fun _ _ => (0 : ℚ)) a.description a.title ["ai"]))).filter
            (fun x => (1 : ℚ) ≤ x.kw_score) |> sortDesc (stage3Lt 0)).take 10) =
      [⟨dupA1, 1⟩, ⟨dupA2, 1⟩]
    rw [hmap]
    decide
  have hrun1 : dupRun.hash_deduped = contentDedupStage []
      (fetch_full_content_batch (fun _ => some "shared body text") (fun t => t)
        (keywordStage (fun _ _ => (0 : ℚ)) ["ai"] 1 10 0 (urlDedupStage [] [dupA1, dupA2]))) := rfl
  have hrun2 : dupRun.summarized = summarizeStage (fun _ _ => "sum") 5
      (fallbackSortStage 0 (contentDedupStage []
        (fetch_full_content_batch (fun _ => some "shared body text") (fun t => t)
          (keywordStage (fun _ _ => (0 : ℚ)) ["ai"] 1 10 0
            (urlDedupStage [] [dupA1, dupA2]))))) := rfl
  refine ⟨by decide, by decide, by decide, by decide, ?_, ?_, ?_⟩
  · rw [hrun1, hstage3]; decide
  · rw [hrun2, hstage3]; decide
  · rw [hrun2, hstage3]; decide

end DailyWebBrief
